import Mathlib

/-!
# PyroWave codec: shallow embedding and verification

This file embeds the CPU-side core of the PyroWave codec
(`pyrowave_common.hpp/.cpp`, `pyrowave_decoder.cpp`, `pyrowave_encoder.cpp`)
in Lean and settles a list of claims about it.

Modelling conventions:
* machine integers are `Nat` (all quantities involved are non-negative in the
  source; wrap-around is made explicit with `% 2^w` where the source relies
  on it);
* the exact dyadic floating-point values produced by `decode_quant` are
  modelled as `ℚ` (every value involved is an exactly representable dyadic
  rational, so the rational model is bit-exact);
* byte buffers are `List Nat` of byte values; multi-byte fields are
  little-endian as on the wire;
* the GPU dispatches are not modelled; only the CPU-visible state transitions
  of the decoder and the CPU packetizer are.
-/

namespace PyroWave

/-! ## Constants (`pyrowave_common.hpp`) -/

def DecompositionLevels : Nat := 5

/-- `Alignment = 1 << DecompositionLevels` -/
def Alignment : Nat := 2 ^ DecompositionLevels

/-- `MinimumImageSize = 4 << DecompositionLevels` -/
def MinimumImageSize : Nat := 4 * 2 ^ DecompositionLevels

def NumComponents : Nat := 3

def SequenceCountMask : Nat := 0x7

def UINT32_MAX : Nat := 4294967295

def MaxScaleExp : ℤ := 4

/-! ## Quantizer code (`pyrowave_common.hpp`, `decode_quant` / `encode_quant`)

`decode_quant` computes `(1.0f / (8*1024*1024)) * float((8 + m) * (1 << (20 + e)))`
with `e = MaxScaleExp - (quant_code >> 3)` and `m = quant_code & 0x7`.
For six-bit codes `20 + e ≥ 17 ≥ 0`, the integer `(8+m) * 2^(20+e)` has at
most 4 significant mantissa bits and the scale is a power of two, so the
float computation is exact; it is modelled as the rational it produces.
`quant_code >> 3` is written `quant_code / 8` and `quant_code & 0x7` is
written `quant_code % 8`. -/
def decode_quant (quant_code : Nat) : ℚ :=
  let e : ℤ := MaxScaleExp - (quant_code / 8 : Nat)
  let m : Nat := quant_code % 8
  (1 / (8 * 1024 * 1024) : ℚ) * ((8 + m : ℚ) * (2 : ℚ) ^ ((20 : ℤ) + e))

/-- `encode_quant` reinterprets the bits `v` of the positive `float` input and
computes `e = -(((v >> 23) & 0xff) - 127 - MaxScaleExp)` and `m = (v >> 20) & 0x7`,
returning `(e << 3) | m`.  For a positive normal float of exact value `q`,
`((v >> 23) & 0xff) - 127 = ⌊log₂ q⌋` and the top three mantissa bits are
`⌊q · 2^(3 - ⌊log₂ q⌋)⌋ mod 8`; since `m < 8`, `(e << 3) | m = 8·e + m`. -/
def encode_quant (q : ℚ) : Nat :=
  let E : ℤ := Int.log 2 q
  let e : ℤ := -(E - MaxScaleExp)
  let m : Nat := (⌊q * (2 : ℚ) ^ ((3 : ℤ) - E)⌋).toNat % 8
  e.toNat * 8 + m

/-! ## Helper lemmas for the quantizer proofs -/

lemma int_log_two_eq {E : ℤ} {q : ℚ} (h1 : (2 : ℚ) ^ E ≤ q) (h2 : q < (2 : ℚ) ^ (E + 1)) :
    Int.log 2 q = E := by
  have hq : (0 : ℚ) < q := lt_of_lt_of_le (zpow_pos (by norm_num) E) h1
  have hb : (1 : ℕ) < 2 := by norm_num
  have ha : E ≤ Int.log 2 q := by
    have := (Int.zpow_le_iff_le_log hb hq (x := E)).mp
    exact this (by exact_mod_cast h1)
  have hc : Int.log 2 q < E + 1 := by
    have := (Int.lt_zpow_iff_log_lt hb hq (x := E + 1)).mp
    exact this (by exact_mod_cast h2)
  omega

lemma decode_quant_eq (e m : Nat) (he : e < 8) (hm : m < 8) :
    decode_quant (8 * e + m) = ((8 + m : ℚ) / 8) * (2 : ℚ) ^ ((4 : ℤ) - e) := by
  have hdiv : (8 * e + m) / 8 = e := by omega
  have hmod : (8 * e + m) % 8 = m := by omega
  simp only [decode_quant, hdiv, hmod, MaxScaleExp]
  have hexp : (20 : ℤ) + (4 - e) = (4 - e) + 20 := by ring
  rw [hexp, zpow_add₀ (by norm_num : (2 : ℚ) ≠ 0)]
  have : ((2 : ℚ) ^ (20 : ℤ)) = (1048576 : ℚ) := by norm_num
  rw [this]
  ring

lemma encode_decode_aux (e m : Nat) (he : e < 8) (hm : m < 8) :
    encode_quant (decode_quant (8 * e + m)) = 8 * e + m := by
  rw [decode_quant_eq e m he hm]
  set q : ℚ := ((8 + m : ℚ) / 8) * (2 : ℚ) ^ ((4 : ℤ) - e) with hq_def
  have hm8 : (1 : ℚ) ≤ (8 + m : ℚ) / 8 := by
    rw [le_div_iff₀ (by norm_num)]
    norm_num
  have hmq : (m : ℚ) < 8 := by exact_mod_cast hm
  have hm8' : (8 + m : ℚ) / 8 < 2 := by
    rw [div_lt_iff₀ (by norm_num)]
    linarith
  have hpow_pos : (0 : ℚ) < (2 : ℚ) ^ ((4 : ℤ) - e) := zpow_pos (by norm_num) _
  have h1 : (2 : ℚ) ^ ((4 : ℤ) - e) ≤ q := by
    calc (2 : ℚ) ^ ((4 : ℤ) - e) = 1 * (2 : ℚ) ^ ((4 : ℤ) - e) := by ring
    _ ≤ q := by
        rw [hq_def]
        exact mul_le_mul_of_nonneg_right hm8 (le_of_lt hpow_pos)
  have h2 : q < (2 : ℚ) ^ (((4 : ℤ) - e) + 1) := by
    rw [zpow_add₀ (by norm_num : (2 : ℚ) ≠ 0), zpow_one, hq_def]
    calc ((8 + m : ℚ) / 8) * (2 : ℚ) ^ ((4 : ℤ) - e)
        < 2 * (2 : ℚ) ^ ((4 : ℤ) - e) := by
          exact mul_lt_mul_of_pos_right hm8' hpow_pos
    _ = (2 : ℚ) ^ ((4 : ℤ) - e) * 2 := by ring
  have hlog : Int.log 2 q = (4 : ℤ) - e := int_log_two_eq h1 h2
  have hfloor : q * (2 : ℚ) ^ ((3 : ℤ) - ((4 : ℤ) - e)) = (8 + m : ℚ) := by
    rw [hq_def]
    rw [mul_assoc, ← zpow_add₀ (by norm_num : (2 : ℚ) ≠ 0)]
    have : ((4 : ℤ) - e) + ((3 : ℤ) - ((4 : ℤ) - e)) = 3 := by ring
    rw [this, show ((2 : ℚ) ^ (3 : ℤ)) = 8 by norm_num]
    ring
  simp only [encode_quant, hlog, hfloor, MaxScaleExp]
  have h8m : (⌊(8 + m : ℚ)⌋ : ℤ) = (8 + m : ℤ) := by
    rw [show ((8 + m : ℚ)) = ((8 + m : ℤ) : ℚ) by push_cast; ring]
    exact Int.floor_intCast _
  rw [h8m]
  have : (-((4 : ℤ) - e - 4)).toNat = e := by omega
  rw [this]
  have : ((8 + m : ℤ)).toNat % 8 = m := by omega
  rw [this]
  omega

/-! ## Claim theorems C2 and C3 -/

/-- C2, counterexample.  The claim states `decode_quant(c) = (8+m)·2^(20−e)/2^23`
with `e` the upper field of the code.  At `c = 0` (`e = 0`, `m = 0`) the code
returns `(1/2^23)·8·2^(20+MaxScaleExp) = 16`, while the claimed formula gives
`8·2^20/2^23 = 1`. -/
theorem C2_counterexample :
    decode_quant 0 = 16 ∧
    ((8 + 0 : ℚ) * (2 : ℚ) ^ ((20 : ℤ) - 0)) / 2 ^ 23 = 1 ∧ (16 : ℚ) ≠ 1 := by
  refine ⟨?_, by norm_num, by norm_num⟩
  simp only [decode_quant, MaxScaleExp]
  norm_num

/-- C2, amended: for every six-bit quant code `c = (e<<3)|m`, `decode_quant c`
returns exactly `(8+m) · 2^((20+MaxScaleExp) − e) / 2^23 = (8+m) · 2^(24−e) / 2^23`
(an exactly representable dyadic rational, so the float computation is exact;
the model returns that exact rational). -/
theorem C2_decode_quant_formula (c : Nat) (hc : c < 64) :
    decode_quant c =
      ((8 + ((c % 8 : Nat) : ℚ)) * (2 : ℚ) ^ ((24 : ℤ) - ((c / 8 : Nat) : ℤ))) / 2 ^ 23 := by
  have he : c / 8 < 8 := by omega
  have hm : c % 8 < 8 := by omega
  have hc' : c = 8 * (c / 8) + c % 8 := by omega
  have haux : ∀ e m : Nat, e < 8 → m < 8 →
      decode_quant (8 * e + m) = ((8 + (m : ℚ)) * (2 : ℚ) ^ ((24 : ℤ) - (e : ℤ))) / 2 ^ 23 := by
    intro e m he' hm'
    rw [decode_quant_eq e m he' hm',
        show ((24 : ℤ) - (e : ℤ)) = ((4 : ℤ) - e) + 20 by ring,
        zpow_add₀ (by norm_num : (2 : ℚ) ≠ 0),
        show ((2 : ℚ) ^ (20 : ℤ)) = (1048576 : ℚ) by norm_num,
        show ((2 : ℚ) ^ (23 : ℕ)) = (8388608 : ℚ) by norm_num]
    ring
  have := haux (c / 8) (c % 8) he hm
  rw [← hc'] at this
  exact this

/-- C2 witness: the amended formula evaluated at `c = 9` (`e = 1`, `m = 1`). -/
theorem C2_decode_quant_formula_witness :
    decode_quant 9 =
      ((8 + ((9 % 8 : Nat) : ℚ)) * (2 : ℚ) ^ ((24 : ℤ) - ((9 / 8 : Nat) : ℤ))) / 2 ^ 23 :=
  C2_decode_quant_formula 9 (by norm_num)

/-- C3: `encode_quant (decode_quant c) = c` for every six-bit code `c < 2^6`. -/
theorem C3_encode_decode_roundtrip (c : Nat) (hc : c < 64) :
    encode_quant (decode_quant c) = c := by
  have he : c / 8 < 8 := by omega
  have hm : c % 8 < 8 := by omega
  have hc' : 8 * (c / 8) + c % 8 = c := by omega
  calc encode_quant (decode_quant c)
      = encode_quant (decode_quant (8 * (c / 8) + c % 8)) := by rw [hc']
  _ = 8 * (c / 8) + c % 8 := encode_decode_aux (c / 8) (c % 8) he hm
  _ = c := hc'

/-- C3 witness at `c = 37`. -/
theorem C3_encode_decode_roundtrip_witness : encode_quant (decode_quant 37) = 37 :=
  C3_encode_decode_roundtrip 37 (by norm_num)

/-! ## Wire format (`pyrowave_common.hpp`)

A packet buffer is a `List Nat` of byte values.  `BitstreamHeader` and
`BitstreamSequenceHeader` are 8-byte structs of little-endian bitfields; both
are read as two little-endian 32-bit words.  Bitfield extraction
`(w >> k) & (2^n - 1)` is written `w / 2^k % 2^n`. -/

/-- Byte `i` of a buffer (the source reads raw memory; every in-bounds read is
guarded by a size check in `push_packet`). -/
def byteAt (data : List Nat) (i : Nat) : Nat := data.getD i 0

/-- Little-endian 32-bit word starting at byte offset `i`. -/
def wordAt (data : List Nat) (i : Nat) : Nat :=
  byteAt data i + 256 * byteAt data (i + 1) +
    65536 * byteAt data (i + 2) + 16777216 * byteAt data (i + 3)

/-- The four little-endian bytes of a 32-bit word. -/
def bytesOfWord (w : Nat) : List Nat :=
  [w % 256, w / 256 % 256, w / 65536 % 256, w / 16777216 % 256]

/-- Group a byte list into little-endian 32-bit words (used when
`decode_packet` copies `payload_words` `u32` values out of a packet). -/
def wordsOfBytes : List Nat → List Nat
  | b0 :: b1 :: b2 :: b3 :: rest =>
      (b0 + 256 * b1 + 65536 * b2 + 16777216 * b3) :: wordsOfBytes rest
  | _ => []

/-! `BitstreamHeader`: word 0 holds `ballot : 16`, `payload_words : 12`,
`sequence : 3`, `extended : 1`; word 1 holds `quant_code : 8`,
`block_index : 24`. -/

def hdrBallot (w0 : Nat) : Nat := w0 % 65536
def hdrPayloadWords (w0 : Nat) : Nat := w0 / 65536 % 4096
def hdrSequence (w0 : Nat) : Nat := w0 / 268435456 % 8
def hdrExtended (w0 : Nat) : Nat := w0 / 2147483648 % 2
def hdrQuantCode (w1 : Nat) : Nat := w1 % 256
def hdrBlockIndex (w1 : Nat) : Nat := w1 / 256 % 16777216

/-! `BitstreamSequenceHeader`: word 0 holds `width_minus_1 : 14`,
`height_minus_1 : 14`, `sequence : 3`, `extended : 1`; word 1 holds
`total_blocks : 24`, `code : 2`, `chroma_resolution : 1` and five colour
metadata bits. -/

def seqWidthM1 (w0 : Nat) : Nat := w0 % 16384
def seqHeightM1 (w0 : Nat) : Nat := w0 / 16384 % 16384
def seqTotalBlocks (w1 : Nat) : Nat := w1 % 16777216
def seqCode (w1 : Nat) : Nat := w1 / 16777216 % 4
def seqChromaResolution (w1 : Nat) : Nat := w1 / 67108864 % 2

/-- `BITSTREAM_EXTENDED_CODE_START_OF_FRAME` -/
def BITSTREAM_EXTENDED_CODE_START_OF_FRAME : Nat := 0

/-! Serializers (the inverse packing, used to state theorems about concrete
packets; they realize the bitfield layout above). -/

/-- Word 0 of a block-packet `BitstreamHeader`. -/
def mkBlockWord0 (ballot payload_words sequence : Nat) : Nat :=
  ballot + 65536 * payload_words + 268435456 * sequence

/-- Word 1 of a block-packet `BitstreamHeader`. -/
def mkBlockWord1 (quant_code block_index : Nat) : Nat :=
  quant_code + 256 * block_index

/-- Word 0 of a `BitstreamSequenceHeader` (with `extended = 1`). -/
def mkSeqWord0 (width_m1 height_m1 sequence : Nat) : Nat :=
  width_m1 + 16384 * height_m1 + 268435456 * sequence + 2147483648

/-- Word 1 of a `BitstreamSequenceHeader` with `code = START_OF_FRAME`. -/
def mkSeqWord1 (total_blocks chroma_resolution : Nat) : Nat :=
  total_blocks + 67108864 * chroma_resolution

/-! ## Decoder state (`pyrowave_decoder.cpp`, `Decoder::Impl`) -/

/-- `ChromaSubsampling` (`pyrowave_config.hpp`); `Chroma420 = 0`,
`Chroma444 = 1`, matching `CHROMA_RESOLUTION_420/444`. -/
inductive ChromaSubsampling where
  | Chroma420
  | Chroma444
deriving DecidableEq, Repr

/-- `int(chroma)` as compared against the wire field `chroma_resolution`. -/
def ChromaSubsampling.toBit : ChromaSubsampling → Nat
  | .Chroma420 => 0
  | .Chroma444 => 1

/-- The per-session constants established by `Decoder::init` /
`WaveletBuffers::init` that `push_packet` consults. -/
structure Session where
  width : Nat
  height : Nat
  chroma : ChromaSubsampling
  block_count_32x32 : Nat
deriving DecidableEq, Repr

/-- The mutable CPU-side state of `Decoder::Impl`:
`dequant_offset_buffer_cpu`, `payload_data_cpu` (a vector of `u32` words),
`decoded_blocks`, `total_blocks_in_sequence`, `last_seq`,
`decoded_frame_for_current_sequence`. -/
structure DecState where
  dequant_offset : List Nat
  payload : List Nat
  decoded_blocks : Nat
  total_blocks_in_sequence : Nat
  last_seq : Nat
  decoded_frame_for_current_sequence : Bool
deriving DecidableEq, Repr

/-- `Decoder::Impl::clear()`: refill the offset table with `UINT32_MAX`,
zero `decoded_blocks`, clear the decoded flag, reset
`total_blocks_in_sequence` to `block_count_32x32` and drop the payload.
(`last_seq` is not touched by `clear`.) -/
def clearState (sess : Session) (st : DecState) : DecState :=
  { dequant_offset := List.replicate st.dequant_offset.length UINT32_MAX
    payload := []
    decoded_blocks := 0
    total_blocks_in_sequence := sess.block_count_32x32
    last_seq := st.last_seq
    decoded_frame_for_current_sequence := false }

/-- `Decoder::Impl::decode_packet`.  `bi`/`pw` are `header->block_index` /
`header->payload_words`; `data` is the remaining buffer starting at the
header (the caller has already checked `pw * 4 ≤ data.length` and
`bi < block_count_32x32`).  Note the source records the offset and bumps
`decoded_blocks` *before* validating `payload_words ≥ 2`, and the duplicate
branch returns success without that validation. -/
def decodePacket (st : DecState) (bi pw : Nat) (data : List Nat) : Bool × DecState :=
  let off := st.dequant_offset.getD bi 0
  if off = UINT32_MAX then
    let st' : DecState :=
      { st with decoded_blocks := st.decoded_blocks + 1
                dequant_offset := st.dequant_offset.set bi st.payload.length }
    if 2 > pw then (false, st')
    else (true, { st' with payload := st'.payload ++ wordsOfBytes (data.take (pw * 4)) })
  else
    (true, st)

/-- One iteration of the `while (size >= sizeof(BitstreamHeader))` loop of
`Decoder::Impl::push_packet`, called only when `data.length ≥ 8`. -/
inductive IterResult where
  | ret : Bool → DecState → IterResult
  | next : DecState → List Nat → IterResult
deriving DecidableEq, Repr

def pushIter (sess : Session) (st : DecState) (data : List Nat) : IterResult :=
  let w0 := wordAt data 0
  if hdrExtended w0 ≠ 0 then
    -- sequence-header path
    let w1 := wordAt data 4
    if 8 > data.length then .ret false st
    else if seqChromaResolution w1 ≠ sess.chroma.toBit then .ret false st
    else
      let diff := (hdrSequence w0 + 8 - st.last_seq % 8) % 8
      if st.last_seq ≠ UINT32_MAX ∧ diff > SequenceCountMask / 2 then .ret true st
      else
        let st1 :=
          if st.last_seq = UINT32_MAX ∨ diff ≠ 0 then
            { clearState sess st with last_seq := hdrSequence w0 }
          else st
        if seqCode w1 = BITSTREAM_EXTENDED_CODE_START_OF_FRAME then
          if seqWidthM1 w0 + 1 ≠ sess.width ∨ seqHeightM1 w0 + 1 ≠ sess.height then
            .ret false st1
          else
            .next { st1 with total_blocks_in_sequence := seqTotalBlocks w1 } (data.drop 8)
        else .ret false st1
  else
    -- block-packet path
    let packet_size := hdrPayloadWords w0 * 4
    if packet_size > data.length then .ret false st
    else if st.last_seq ≠ UINT32_MAX ∧
            (hdrSequence w0 + 8 - st.last_seq % 8) % 8 > SequenceCountMask / 2 then
      .ret true st
    else
      let restart := st.last_seq = UINT32_MAX ∨ (hdrSequence w0 + 8 - st.last_seq % 8) % 8 ≠ 0
      let st1 :=
        if restart then { clearState sess st with last_seq := hdrSequence w0 } else st
      let w1 := wordAt data 4
      if hdrBlockIndex w1 ≥ sess.block_count_32x32 then .ret false st1
      else
        match decodePacket st1 (hdrBlockIndex w1) (hdrPayloadWords w0) data with
        | (false, st2) => .ret false st2
        | (true, st2) => .next st2 (data.drop packet_size)

/-- The parse loop of `push_packet`, with explicit fuel (one unit per loop
iteration).  `none` models non-termination of the source loop.  On loop exit
the source returns `size == 0` (a partially consumed buffer is an error). -/
def pushPacketLoop (sess : Session) : Nat → DecState → List Nat → Option (Bool × DecState)
  | 0, _, _ => none
  | fuel + 1, st, data =>
    if data.length < 8 then some (data.isEmpty, st)
    else
      match pushIter sess st data with
      | .ret b st' => some (b, st')
      | .next st' data' => pushPacketLoop sess fuel st' data'

/-- `Decoder::Impl::push_packet`.  Every loop iteration that continues
consumes a positive multiple of 4 bytes except the duplicate-block case with
`payload_words = 0`, so `data.length + 1` units of fuel suffice for every
terminating execution; `none` therefore models a non-terminating call. -/
def push_packet (sess : Session) (st : DecState) (data : List Nat) :
    Option (Bool × DecState) :=
  pushPacketLoop sess (data.length + 1) st data

/-- `Decoder::Impl::decode_is_ready`. -/
def decode_is_ready (st : DecState) (allow_partial_frame : Bool) : Bool :=
  if st.decoded_frame_for_current_sequence then false
  else if st.decoded_blocks < st.total_blocks_in_sequence ∧
          (¬ allow_partial_frame ∨
            st.decoded_blocks ≤ st.total_blocks_in_sequence / 2) then false
  else true

/-- The CPU-visible state effect of a successful `Decoder::Impl::decode`: the
GPU work is dispatched and `decoded_frame_for_current_sequence` is set.  (The
failure paths, missing subgroup support, return `false` without touching the
state and are not modelled.) -/
def decodeOp (st : DecState) : Bool × DecState :=
  (true, { st with decoded_frame_for_current_sequence := true })

/-! ## Packet serializers used to state the claims -/

/-- A serialized `BitstreamSequenceHeader` packet (8 bytes). -/
def seqPacket (width_m1 height_m1 sequence total_blocks chroma_resolution : Nat) : List Nat :=
  bytesOfWord (mkSeqWord0 width_m1 height_m1 sequence) ++
    bytesOfWord (mkSeqWord1 total_blocks chroma_resolution)

/-- A serialized block packet: 8-byte `BitstreamHeader` followed by the raw
payload bytes (`payload_words` counts the header, so a well-formed packet has
`extra.length = 4 * (payload_words - 2)`). -/
def blockPacket (ballot payload_words sequence quant_code block_index : Nat)
    (extra : List Nat) : List Nat :=
  bytesOfWord (mkBlockWord0 ballot payload_words sequence) ++
    (bytesOfWord (mkBlockWord1 quant_code block_index) ++ extra)

/-! ## Byte/word lemmas -/

lemma bytesOfWord_cons (w : Nat) (rest : List Nat) :
    bytesOfWord w ++ rest =
      w % 256 :: (w / 256 % 256 :: (w / 65536 % 256 :: (w / 16777216 % 256 :: rest))) := rfl

lemma wordAt_first (w : Nat) (hw : w < 4294967296) (rest : List Nat) :
    wordAt (bytesOfWord w ++ rest) 0 = w := by
  rw [bytesOfWord_cons]
  simp only [wordAt, byteAt, List.getD_cons_zero, List.getD_cons_succ]
  omega

lemma wordAt_second (w0 w1 : Nat) (hw1 : w1 < 4294967296) (rest : List Nat) :
    wordAt (bytesOfWord w0 ++ (bytesOfWord w1 ++ rest)) 4 = w1 := by
  rw [bytesOfWord_cons, bytesOfWord_cons]
  simp only [wordAt, byteAt, List.getD_cons_zero, List.getD_cons_succ]
  omega

lemma length_bytesOfWord_append (w0 w1 : Nat) (rest : List Nat) :
    (bytesOfWord w0 ++ (bytesOfWord w1 ++ rest)).length = 8 + rest.length := by
  simp [bytesOfWord]
  omega

lemma drop8_bytesOfWord_append (w0 w1 : Nat) (rest : List Nat) :
    (bytesOfWord w0 ++ (bytesOfWord w1 ++ rest)).drop 8 = rest := by
  rw [bytesOfWord_cons, bytesOfWord_cons]
  rfl

lemma wordsOfBytes_word_cons (w : Nat) (hw : w < 4294967296) (rest : List Nat) :
    wordsOfBytes (bytesOfWord w ++ rest) = w :: wordsOfBytes rest := by
  rw [bytesOfWord_cons]
  rw [wordsOfBytes]
  congr 1
  omega

/-! ## Bitfield round-trip lemmas -/

section FieldLemmas

variable {ballot payload_words sequence quant_code block_index : Nat}
variable {width_m1 height_m1 total_blocks chroma_resolution : Nat}

lemma mkBlockWord0_lt (hb : ballot < 65536) (hp : payload_words < 4096) (hs : sequence < 8) :
    mkBlockWord0 ballot payload_words sequence < 4294967296 := by
  unfold mkBlockWord0; omega

lemma mkBlockWord1_lt (hq : quant_code < 256) (hi : block_index < 16777216) :
    mkBlockWord1 quant_code block_index < 4294967296 := by
  unfold mkBlockWord1; omega

lemma mkSeqWord0_lt (hw : width_m1 < 16384) (hh : height_m1 < 16384) (hs : sequence < 8) :
    mkSeqWord0 width_m1 height_m1 sequence < 4294967296 := by
  unfold mkSeqWord0; omega

lemma mkSeqWord1_lt (ht : total_blocks < 16777216) (hc : chroma_resolution < 2) :
    mkSeqWord1 total_blocks chroma_resolution < 4294967296 := by
  unfold mkSeqWord1; omega

lemma hdrExtended_mkBlockWord0 (hb : ballot < 65536) (hp : payload_words < 4096)
    (hs : sequence < 8) : hdrExtended (mkBlockWord0 ballot payload_words sequence) = 0 := by
  unfold hdrExtended mkBlockWord0; omega

lemma hdrSequence_mkBlockWord0 (hb : ballot < 65536) (hp : payload_words < 4096)
    (hs : sequence < 8) : hdrSequence (mkBlockWord0 ballot payload_words sequence) = sequence := by
  unfold hdrSequence mkBlockWord0; omega

lemma hdrPayloadWords_mkBlockWord0 (hb : ballot < 65536) (hp : payload_words < 4096)
    (hs : sequence < 8) :
    hdrPayloadWords (mkBlockWord0 ballot payload_words sequence) = payload_words := by
  unfold hdrPayloadWords mkBlockWord0; omega

lemma hdrBlockIndex_mkBlockWord1 (hq : quant_code < 256) (hi : block_index < 16777216) :
    hdrBlockIndex (mkBlockWord1 quant_code block_index) = block_index := by
  unfold hdrBlockIndex mkBlockWord1; omega

lemma hdrExtended_mkSeqWord0 (hw : width_m1 < 16384) (hh : height_m1 < 16384)
    (hs : sequence < 8) : hdrExtended (mkSeqWord0 width_m1 height_m1 sequence) = 1 := by
  unfold hdrExtended mkSeqWord0; omega

lemma hdrSequence_mkSeqWord0 (hw : width_m1 < 16384) (hh : height_m1 < 16384)
    (hs : sequence < 8) : hdrSequence (mkSeqWord0 width_m1 height_m1 sequence) = sequence := by
  unfold hdrSequence mkSeqWord0; omega

lemma seqWidthM1_mkSeqWord0 (hw : width_m1 < 16384) (hh : height_m1 < 16384)
    (hs : sequence < 8) : seqWidthM1 (mkSeqWord0 width_m1 height_m1 sequence) = width_m1 := by
  unfold seqWidthM1 mkSeqWord0; omega

lemma seqHeightM1_mkSeqWord0 (hw : width_m1 < 16384) (hh : height_m1 < 16384)
    (hs : sequence < 8) : seqHeightM1 (mkSeqWord0 width_m1 height_m1 sequence) = height_m1 := by
  unfold seqHeightM1 mkSeqWord0; omega

lemma seqTotalBlocks_mkSeqWord1 (ht : total_blocks < 16777216) (hc : chroma_resolution < 2) :
    seqTotalBlocks (mkSeqWord1 total_blocks chroma_resolution) = total_blocks := by
  unfold seqTotalBlocks mkSeqWord1; omega

lemma seqCode_mkSeqWord1 (ht : total_blocks < 16777216) (hc : chroma_resolution < 2) :
    seqCode (mkSeqWord1 total_blocks chroma_resolution) = 0 := by
  unfold seqCode mkSeqWord1; omega

lemma seqChromaResolution_mkSeqWord1 (ht : total_blocks < 16777216)
    (hc : chroma_resolution < 2) :
    seqChromaResolution (mkSeqWord1 total_blocks chroma_resolution) = chroma_resolution := by
  unfold seqChromaResolution mkSeqWord1; omega

lemma chroma_toBit_lt (c : ChromaSubsampling) : c.toBit < 2 := by
  cases c <;> simp [ChromaSubsampling.toBit]

end FieldLemmas

/-! ## Characterization of one `push_packet` loop iteration per packet kind -/

/-- Normal form of `pushIter` on a serialized sequence-header packet whose
chroma bit matches the session. -/
lemma pushIter_seqPacket (sess : Session) (st : DecState)
    (wm1 hm1 s total : Nat)
    (hw : wm1 < 16384) (hh : hm1 < 16384) (hs : s < 8) (ht : total < 16777216) :
    pushIter sess st (seqPacket wm1 hm1 s total sess.chroma.toBit) =
      (if st.last_seq ≠ UINT32_MAX ∧ (s + 8 - st.last_seq % 8) % 8 > 3 then
        .ret true st
      else
        let st1 :=
          if st.last_seq = UINT32_MAX ∨ (s + 8 - st.last_seq % 8) % 8 ≠ 0 then
            { clearState sess st with last_seq := s }
          else st
        if wm1 + 1 ≠ sess.width ∨ hm1 + 1 ≠ sess.height then .ret false st1
        else .next { st1 with total_blocks_in_sequence := total } []) := by
  have hcr := chroma_toBit_lt sess.chroma
  have hw0 := wordAt_first (mkSeqWord0 wm1 hm1 s) (mkSeqWord0_lt hw hh hs)
    (bytesOfWord (mkSeqWord1 total sess.chroma.toBit))
  have hw1 : wordAt (seqPacket wm1 hm1 s total sess.chroma.toBit) 4 =
      mkSeqWord1 total sess.chroma.toBit := by
    have := wordAt_second (mkSeqWord0 wm1 hm1 s) (mkSeqWord1 total sess.chroma.toBit)
      (mkSeqWord1_lt ht hcr) []
    simpa [seqPacket] using this
  have hlen : (seqPacket wm1 hm1 s total sess.chroma.toBit).length = 8 := by
    have := length_bytesOfWord_append (mkSeqWord0 wm1 hm1 s)
      (mkSeqWord1 total sess.chroma.toBit) []
    simpa [seqPacket] using this
  have hdropeq : (seqPacket wm1 hm1 s total sess.chroma.toBit).drop 8 = [] := by
    have := drop8_bytesOfWord_append (mkSeqWord0 wm1 hm1 s)
      (mkSeqWord1 total sess.chroma.toBit) []
    simpa [seqPacket] using this
  simp only [pushIter]
  rw [show wordAt (seqPacket wm1 hm1 s total sess.chroma.toBit) 0 =
        mkSeqWord0 wm1 hm1 s by simpa [seqPacket] using hw0]
  rw [hdrExtended_mkSeqWord0 hw hh hs]
  rw [if_pos (by norm_num : (1 : Nat) ≠ 0)]
  rw [hw1, hlen]
  rw [if_neg (by norm_num : ¬ (8 > 8))]
  rw [seqChromaResolution_mkSeqWord1 ht hcr]
  rw [if_neg (by simp)]
  rw [hdrSequence_mkSeqWord0 hw hh hs]
  rw [seqCode_mkSeqWord1 ht hcr]
  rw [seqWidthM1_mkSeqWord0 hw hh hs, seqHeightM1_mkSeqWord0 hw hh hs,
      seqTotalBlocks_mkSeqWord1 ht hcr, hdropeq]
  norm_num [BITSTREAM_EXTENDED_CODE_START_OF_FRAME, SequenceCountMask]

/-- Normal form of `pushIter` on a serialized block packet whose length
matches its `payload_words` field. -/
lemma pushIter_blockPacket (sess : Session) (st : DecState)
    (ballot pw s qc bi : Nat) (extra : List Nat)
    (hb : ballot < 65536) (hp : pw < 4096) (hs : s < 8) (hq : qc < 256) (hi : bi < 16777216)
    (hlen : 8 + extra.length = pw * 4) :
    pushIter sess st (blockPacket ballot pw s qc bi extra) =
      (if st.last_seq ≠ UINT32_MAX ∧ (s + 8 - st.last_seq % 8) % 8 > 3 then
        .ret true st
      else
        let st1 :=
          if st.last_seq = UINT32_MAX ∨ (s + 8 - st.last_seq % 8) % 8 ≠ 0 then
            { clearState sess st with last_seq := s }
          else st
        if bi ≥ sess.block_count_32x32 then .ret false st1
        else
          match decodePacket st1 bi pw (blockPacket ballot pw s qc bi extra) with
          | (false, st2) => .ret false st2
          | (true, st2) => .next st2 []) := by
  have hw0 := wordAt_first (mkBlockWord0 ballot pw s) (mkBlockWord0_lt hb hp hs)
    (bytesOfWord (mkBlockWord1 qc bi) ++ extra)
  have hw1 := wordAt_second (mkBlockWord0 ballot pw s) (mkBlockWord1 qc bi)
    (mkBlockWord1_lt hq hi) extra
  have hlen' : (blockPacket ballot pw s qc bi extra).length = pw * 4 := by
    have h := length_bytesOfWord_append (mkBlockWord0 ballot pw s) (mkBlockWord1 qc bi) extra
    unfold blockPacket
    omega
  have hdropeq : (blockPacket ballot pw s qc bi extra).drop (pw * 4) = [] := by
    rw [← hlen', List.drop_length]
  simp only [pushIter]
  rw [show wordAt (blockPacket ballot pw s qc bi extra) 0 = mkBlockWord0 ballot pw s from hw0]
  rw [hdrExtended_mkBlockWord0 hb hp hs]
  rw [if_neg (by norm_num : ¬ ((0 : Nat) ≠ 0))]
  rw [hdrPayloadWords_mkBlockWord0 hb hp hs, hlen']
  rw [if_neg (by omega : ¬ (pw * 4 > pw * 4))]
  rw [hdrSequence_mkBlockWord0 hb hp hs]
  rw [show wordAt (blockPacket ballot pw s qc bi extra) 4 = mkBlockWord1 qc bi from hw1]
  rw [hdrBlockIndex_mkBlockWord1 hq hi, hdropeq]
  norm_num [SequenceCountMask]

/-! ## `push_packet` on a single packet -/

lemma pushPacketLoop_nil (sess : Session) (fuel : Nat) (st : DecState) :
    pushPacketLoop sess (fuel + 1) st [] = some (true, st) := by
  simp [pushPacketLoop]

lemma push_packet_of_iter_ret {sess : Session} {st st' : DecState} {data : List Nat} {b : Bool}
    (h8 : 8 ≤ data.length) (h : pushIter sess st data = .ret b st') :
    push_packet sess st data = some (b, st') := by
  unfold push_packet
  rw [pushPacketLoop]
  rw [if_neg (by omega), h]

lemma push_packet_of_iter_next_nil {sess : Session} {st st' : DecState} {data : List Nat}
    (h8 : 8 ≤ data.length) (h : pushIter sess st data = .next st' []) :
    push_packet sess st data = some (true, st') := by
  unfold push_packet
  rw [pushPacketLoop]
  rw [if_neg (by omega), h]
  obtain ⟨f, hf⟩ : ∃ f, data.length = f + 1 := ⟨data.length - 1, by omega⟩
  rw [hf]
  exact pushPacketLoop_nil sess f st'

/-! ## `decodePacket` lemmas -/

lemma decodePacket_duplicate {st : DecState} {bi pw : Nat} {data : List Nat}
    (h : st.dequant_offset.getD bi 0 ≠ UINT32_MAX) :
    decodePacket st bi pw data = (true, st) := by
  simp only [decodePacket]
  rw [if_neg h]

lemma decodePacket_fresh {st : DecState} {bi pw : Nat} {data : List Nat}
    (h : st.dequant_offset.getD bi 0 = UINT32_MAX) (hpw : 2 ≤ pw) :
    decodePacket st bi pw data =
      (true,
        { st with decoded_blocks := st.decoded_blocks + 1
                  dequant_offset := st.dequant_offset.set bi st.payload.length
                  payload := st.payload ++ wordsOfBytes (data.take (pw * 4)) }) := by
  simp only [decodePacket]
  rw [if_pos h, if_neg (by omega : ¬ (2 > pw))]

lemma decodePacket_preserves_flag (st : DecState) (bi pw : Nat) (data : List Nat) :
    (decodePacket st bi pw data).2.decoded_frame_for_current_sequence =
      st.decoded_frame_for_current_sequence := by
  simp only [decodePacket]
  split
  · split <;> rfl
  · rfl

lemma decodePacket_fst (st : DecState) (bi pw : Nat) (data : List Nat) (hpw : 2 ≤ pw) :
    (decodePacket st bi pw data).1 = true := by
  simp only [decodePacket]
  split
  · rw [if_neg (by omega : ¬ (2 > pw))]
  · rfl

lemma getD_replicate {n i a : Nat} (h : i < n) : (List.replicate n a).getD i 0 = a := by
  rw [List.getD, List.get?_eq_getElem?, List.getElem?_replicate, if_pos h]
  rfl

lemma UINT32_MAX_eq : UINT32_MAX = 4294967295 := rfl

/-! ## Single-packet behaviour of `push_packet`, by case -/

section PushPacketCases

variable {sess : Session} {st : DecState}

lemma seqPacket_length (wm1 hm1 s total cr : Nat) :
    (seqPacket wm1 hm1 s total cr).length = 8 := by
  have := length_bytesOfWord_append (mkSeqWord0 wm1 hm1 s) (mkSeqWord1 total cr) []
  simpa [seqPacket] using this

lemma blockPacket_length (ballot pw s qc bi : Nat) (extra : List Nat) :
    (blockPacket ballot pw s qc bi extra).length = 8 + extra.length :=
  length_bytesOfWord_append _ _ _

/-- A stale sequence header (`diff > 3`) is dropped: success, state unchanged. -/
lemma push_packet_seq_stale (wm1 hm1 s total : Nat)
    (hw : wm1 < 16384) (hh : hm1 < 16384) (hs : s < 8) (ht : total < 16777216)
    (hlast : st.last_seq < 8)
    (hdiff : (s + 8 - st.last_seq % 8) % 8 > 3) :
    push_packet sess st (seqPacket wm1 hm1 s total sess.chroma.toBit) = some (true, st) := by
  apply push_packet_of_iter_ret (by rw [seqPacket_length])
  rw [pushIter_seqPacket sess st wm1 hm1 s total hw hh hs ht]
  rw [if_pos ⟨by rw [UINT32_MAX_eq]; omega, hdiff⟩]

/-- A sequence header with a new, non-stale sequence (`diff ∈ [1,3]`) clears
the per-frame state, adopts the sequence and records `total_blocks`. -/
lemma push_packet_seq_adopt (wm1 hm1 s total : Nat)
    (hw : wm1 < 16384) (hh : hm1 < 16384) (hs : s < 8) (ht : total < 16777216)
    (hwidth : wm1 + 1 = sess.width) (hheight : hm1 + 1 = sess.height)
    (hlast : st.last_seq < 8)
    (hdiff : (s + 8 - st.last_seq % 8) % 8 ≠ 0)
    (hdiff' : (s + 8 - st.last_seq % 8) % 8 ≤ 3) :
    push_packet sess st (seqPacket wm1 hm1 s total sess.chroma.toBit) =
      some (true, { clearState sess st with
                      last_seq := s, total_blocks_in_sequence := total }) := by
  apply push_packet_of_iter_next_nil (by rw [seqPacket_length])
  rw [pushIter_seqPacket sess st wm1 hm1 s total hw hh hs ht]
  have h1 : ¬(st.last_seq ≠ UINT32_MAX ∧ (s + 8 - st.last_seq % 8) % 8 > 3) := by
    intro h
    omega
  have h3 : ¬(wm1 + 1 ≠ sess.width ∨ hm1 + 1 ≠ sess.height) := by
    simp [hwidth, hheight]
  simp only [if_neg h1, if_pos (Or.inr hdiff), if_neg h3]

/-- A sequence header for the current sequence (`diff = 0`) only re-records
`total_blocks`. -/
lemma push_packet_seq_same (wm1 hm1 s total : Nat)
    (hw : wm1 < 16384) (hh : hm1 < 16384) (hs : s < 8) (ht : total < 16777216)
    (hwidth : wm1 + 1 = sess.width) (hheight : hm1 + 1 = sess.height)
    (hlast : st.last_seq < 8)
    (hdiff : (s + 8 - st.last_seq % 8) % 8 = 0) :
    push_packet sess st (seqPacket wm1 hm1 s total sess.chroma.toBit) =
      some (true, { st with total_blocks_in_sequence := total }) := by
  apply push_packet_of_iter_next_nil (by rw [seqPacket_length])
  rw [pushIter_seqPacket sess st wm1 hm1 s total hw hh hs ht]
  have h1 : ¬(st.last_seq ≠ UINT32_MAX ∧ (s + 8 - st.last_seq % 8) % 8 > 3) := by
    intro h
    omega
  have h2 : ¬(st.last_seq = UINT32_MAX ∨ (s + 8 - st.last_seq % 8) % 8 ≠ 0) := by
    rw [UINT32_MAX_eq]
    omega
  have h3 : ¬(wm1 + 1 ≠ sess.width ∨ hm1 + 1 ≠ sess.height) := by
    simp [hwidth, hheight]
  simp only [if_neg h1, if_neg h2, if_neg h3]

/-- A stale block packet (`diff > 3`) is dropped: success, state unchanged. -/
lemma push_packet_block_stale (ballot pw s qc bi : Nat) (extra : List Nat)
    (hb : ballot < 65536) (hp : pw < 4096) (hs : s < 8) (hq : qc < 256) (hi : bi < 16777216)
    (hlen : 8 + extra.length = pw * 4)
    (hlast : st.last_seq < 8)
    (hdiff : (s + 8 - st.last_seq % 8) % 8 > 3) :
    push_packet sess st (blockPacket ballot pw s qc bi extra) = some (true, st) := by
  apply push_packet_of_iter_ret (by rw [blockPacket_length]; omega)
  rw [pushIter_blockPacket sess st ballot pw s qc bi extra hb hp hs hq hi hlen]
  rw [if_pos ⟨by rw [UINT32_MAX_eq]; omega, hdiff⟩]

/-- A block packet with a new, non-stale sequence clears the per-frame state,
adopts the sequence and stages the (necessarily fresh) block. -/
lemma push_packet_block_adopt (ballot pw s qc bi : Nat) (extra : List Nat)
    (hb : ballot < 65536) (hp : pw < 4096) (hs : s < 8) (hq : qc < 256) (hi : bi < 16777216)
    (hlen : 8 + extra.length = pw * 4)
    (hbi : bi < sess.block_count_32x32) (hbil : bi < st.dequant_offset.length)
    (hlast : st.last_seq < 8)
    (hdiff : (s + 8 - st.last_seq % 8) % 8 ≠ 0)
    (hdiff' : (s + 8 - st.last_seq % 8) % 8 ≤ 3) :
    push_packet sess st (blockPacket ballot pw s qc bi extra) =
      some (true,
        { dequant_offset := (List.replicate st.dequant_offset.length UINT32_MAX).set bi 0
          payload := wordsOfBytes (blockPacket ballot pw s qc bi extra)
          decoded_blocks := 1
          total_blocks_in_sequence := sess.block_count_32x32
          last_seq := s
          decoded_frame_for_current_sequence := false }) := by
  apply push_packet_of_iter_next_nil (by rw [blockPacket_length]; omega)
  rw [pushIter_blockPacket sess st ballot pw s qc bi extra hb hp hs hq hi hlen]
  have h1 : ¬(st.last_seq ≠ UINT32_MAX ∧ (s + 8 - st.last_seq % 8) % 8 > 3) := by
    intro h
    omega
  simp only [if_neg h1, if_pos (Or.inr hdiff), if_neg (by omega : ¬ bi ≥ sess.block_count_32x32)]
  set st1 : DecState :=
    { clearState sess st with last_seq := s } with hst1
  have hfresh : st1.dequant_offset.getD bi 0 = UINT32_MAX := by
    rw [hst1]
    exact getD_replicate hbil
  rw [decodePacket_fresh hfresh (by omega)]
  have htake : (blockPacket ballot pw s qc bi extra).take (pw * 4) =
      blockPacket ballot pw s qc bi extra := by
    apply List.take_of_length_le
    rw [blockPacket_length]
    omega
  rw [hst1]
  simp only [clearState, htake]
  rfl

/-- A block packet for the current sequence whose block is already staged:
the duplicate is skipped, success, state fully unchanged. -/
lemma push_packet_block_duplicate (ballot pw qc bi : Nat) (extra : List Nat)
    (hb : ballot < 65536) (hp : pw < 4096) (hq : qc < 256) (hi : bi < 16777216)
    (hlen : 8 + extra.length = pw * 4)
    (hbi : bi < sess.block_count_32x32)
    (hlast : st.last_seq < 8)
    (hdup : st.dequant_offset.getD bi 0 ≠ UINT32_MAX) :
    push_packet sess st (blockPacket ballot pw st.last_seq qc bi extra) = some (true, st) := by
  apply push_packet_of_iter_next_nil (by rw [blockPacket_length]; omega)
  rw [pushIter_blockPacket sess st ballot pw st.last_seq qc bi extra hb hp hlast hq hi hlen]
  have hd0 : (st.last_seq + 8 - st.last_seq % 8) % 8 = 0 := by omega
  have h1 : ¬(st.last_seq ≠ UINT32_MAX ∧ (st.last_seq + 8 - st.last_seq % 8) % 8 > 3) := by
    intro h
    omega
  have h2 : ¬(st.last_seq = UINT32_MAX ∨ (st.last_seq + 8 - st.last_seq % 8) % 8 ≠ 0) := by
    rw [UINT32_MAX_eq]
    omega
  simp only [if_neg h1, if_neg h2, if_neg (by omega : ¬ bi ≥ sess.block_count_32x32)]
  rw [decodePacket_duplicate hdup]

/-- A block packet for the current sequence: success, and the resulting state
is exactly `decode_packet`'s effect (no clear happens). -/
lemma push_packet_block_same (ballot pw s qc bi : Nat) (extra : List Nat)
    (hb : ballot < 65536) (hp : pw < 4096) (hs : s < 8) (hq : qc < 256) (hi : bi < 16777216)
    (hpw : 2 ≤ pw)
    (hlen : 8 + extra.length = pw * 4)
    (hbi : bi < sess.block_count_32x32)
    (hlast : st.last_seq < 8)
    (hdiff : (s + 8 - st.last_seq % 8) % 8 = 0) :
    push_packet sess st (blockPacket ballot pw s qc bi extra) =
      some (true, (decodePacket st bi pw (blockPacket ballot pw s qc bi extra)).2) := by
  apply push_packet_of_iter_next_nil (by rw [blockPacket_length]; omega)
  rw [pushIter_blockPacket sess st ballot pw s qc bi extra hb hp hs hq hi hlen]
  have h1 : ¬(st.last_seq ≠ UINT32_MAX ∧ (s + 8 - st.last_seq % 8) % 8 > 3) := by
    intro h
    omega
  have h2 : ¬(st.last_seq = UINT32_MAX ∨ (s + 8 - st.last_seq % 8) % 8 ≠ 0) := by
    rw [UINT32_MAX_eq]
    omega
  simp only [if_neg h1, if_neg h2, if_neg (by omega : ¬ bi ≥ sess.block_count_32x32)]
  have hfst := decodePacket_fst st bi pw (blockPacket ballot pw s qc bi extra) hpw
  rcases hdp : decodePacket st bi pw (blockPacket ballot pw s qc bi extra) with ⟨b, st2⟩
  rw [hdp] at hfst
  simp only at hfst
  subst hfst
  rfl

end PushPacketCases

/-! ## Concrete fixtures

A 128×128 4:4:4 session (the smallest legal image; the exact
`block_count_32x32` does not matter for the decoder-side claims, any positive
bound works, 12 is used). `stInit` is the state right after `Decoder::init`
(which calls `clear()`; `last_seq` starts at `UINT32_MAX`). -/

def sess128 : Session := ⟨128, 128, .Chroma444, 12⟩

def stInit : DecState :=
  { dequant_offset := List.replicate 12 UINT32_MAX
    payload := []
    decoded_blocks := 0
    total_blocks_in_sequence := 12
    last_seq := UINT32_MAX
    decoded_frame_for_current_sequence := false }

/-- `stInit` after a START_OF_FRAME with sequence 0 (`total_blocks = 12`). -/
def stSeq0 : DecState :=
  { dequant_offset := List.replicate 12 UINT32_MAX
    payload := []
    decoded_blocks := 0
    total_blocks_in_sequence := 12
    last_seq := 0
    decoded_frame_for_current_sequence := false }

/-- `stInit` after pushing the valid block packet
`blockPacket 0 2 2 0 0 []` (sequence 2, block 0, `payload_words = 2`). -/
def stDup : DecState :=
  { dequant_offset := (List.replicate 12 UINT32_MAX).set 0 0
    payload := wordsOfBytes (blockPacket 0 2 2 0 0 [])
    decoded_blocks := 1
    total_blocks_in_sequence := 12
    last_seq := 2
    decoded_frame_for_current_sequence := false }

/-! ## Claim C1 -/

/-- C1, counterexample.  The claim drops a packet only when
`(s − last_seq) mod 8 ∈ (4, 7]` and otherwise (for `s ≠ last_seq`) clears the
state and adopts `s`.  The code drops whenever `diff > SequenceCountMask/2 = 3`,
i.e. for `diff ∈ [4, 7]`.  Concretely, with `last_seq = 0`, a sequence header
with `s = 4` (so `diff = 4`, outside the claim's drop interval and `s ≠
last_seq`, hence "clear and adopt" per the claim) is in fact dropped with the
state unchanged: `last_seq` stays 0 instead of becoming 4. -/
theorem C1_counterexample :
    push_packet sess128 stSeq0 (seqPacket 127 127 4 5 sess128.chroma.toBit) =
      some (true, stSeq0) ∧
    stSeq0.last_seq = 0 ∧
    (4 + 8 - stSeq0.last_seq % 8) % 8 = 4 ∧
    ¬ (4 > 4 ∧ 4 ≤ 7) ∧
    stSeq0.last_seq ≠ 4 := by
  refine ⟨by decide, by decide, by decide, by decide, by decide⟩

/-- C1, amended: for a decoder with an adopted sequence (`last_seq < 8`,
i.e. not `UINT32_MAX`), a single session-matching packet (sequence header or
block packet) with 3-bit sequence `s` is dropped with success and completely
unchanged state when `(s − last_seq) mod 8 ∈ [4, 7]` (not `(4, 7]`); for every
other `s ≠ last_seq` the state is cleared and `s` is adopted (the sequence
header also records `total_blocks`; the block packet stages its fresh
block in the cleared state). -/
theorem C1_sequence_delta_rule :
    (∀ (sess : Session) (st : DecState) (wm1 hm1 s total : Nat),
      wm1 < 16384 → hm1 < 16384 → s < 8 → total < 16777216 →
      wm1 + 1 = sess.width → hm1 + 1 = sess.height → st.last_seq < 8 →
      (4 ≤ (s + 8 - st.last_seq % 8) % 8 →
        push_packet sess st (seqPacket wm1 hm1 s total sess.chroma.toBit) = some (true, st)) ∧
      ((s + 8 - st.last_seq % 8) % 8 ≠ 0 → (s + 8 - st.last_seq % 8) % 8 < 4 →
        push_packet sess st (seqPacket wm1 hm1 s total sess.chroma.toBit) =
          some (true, { clearState sess st with
                          last_seq := s, total_blocks_in_sequence := total })))
    ∧
    (∀ (sess : Session) (st : DecState) (ballot pw s qc bi : Nat) (extra : List Nat),
      ballot < 65536 → pw < 4096 → s < 8 → qc < 256 → bi < 16777216 →
      8 + extra.length = pw * 4 → bi < sess.block_count_32x32 →
      bi < st.dequant_offset.length → st.last_seq < 8 →
      (4 ≤ (s + 8 - st.last_seq % 8) % 8 →
        push_packet sess st (blockPacket ballot pw s qc bi extra) = some (true, st)) ∧
      ((s + 8 - st.last_seq % 8) % 8 ≠ 0 → (s + 8 - st.last_seq % 8) % 8 < 4 →
        push_packet sess st (blockPacket ballot pw s qc bi extra) =
          some (true,
            { dequant_offset := (List.replicate st.dequant_offset.length UINT32_MAX).set bi 0
              payload := wordsOfBytes (blockPacket ballot pw s qc bi extra)
              decoded_blocks := 1
              total_blocks_in_sequence := sess.block_count_32x32
              last_seq := s
              decoded_frame_for_current_sequence := false }))) := by
  constructor
  · intro sess st wm1 hm1 s total hw hh hs ht hwidth hheight hlast
    refine ⟨fun hdiff => ?_, fun hne hlt => ?_⟩
    · exact push_packet_seq_stale wm1 hm1 s total hw hh hs ht hlast (by omega)
    · exact push_packet_seq_adopt wm1 hm1 s total hw hh hs ht hwidth hheight hlast hne
        (by omega)
  · intro sess st ballot pw s qc bi extra hb hp hs hq hi hlen hbi hbil hlast
    refine ⟨fun hdiff => ?_, fun hne hlt => ?_⟩
    · exact push_packet_block_stale ballot pw s qc bi extra hb hp hs hq hi hlen hlast
        (by omega)
    · exact push_packet_block_adopt ballot pw s qc bi extra hb hp hs hq hi hlen hbi hbil
        hlast hne (by omega)

/-- C1 witness: a stale (`diff = 5`) sequence header on `stSeq0` is dropped
unchanged, and a new (`diff = 1`) sequence header on `stSeq0` adopts
sequence 1. -/
theorem C1_sequence_delta_rule_witness :
    push_packet sess128 stSeq0 (seqPacket 127 127 5 7 sess128.chroma.toBit) =
      some (true, stSeq0) ∧
    push_packet sess128 stSeq0 (seqPacket 127 127 1 7 sess128.chroma.toBit) =
      some (true, { clearState sess128 stSeq0 with
                      last_seq := 1, total_blocks_in_sequence := 7 }) := by
  have h := C1_sequence_delta_rule.1 sess128 stSeq0 127 127
  exact ⟨(h 5 7 (by norm_num) (by norm_num) (by norm_num) (by norm_num) (by decide) (by decide)
            (by decide)).1 (by decide),
         (h 1 7 (by norm_num) (by norm_num) (by norm_num) (by norm_num) (by decide) (by decide)
            (by decide)).2 (by decide) (by decide)⟩

/-! ## Claim C7 -/

/-- C7: pushing a block packet of the current sequence whose `block_index`
already has a recorded dequant offset returns success (after logging a
duplicate warning in the source) and leaves the whole decoder state —
`decoded_blocks`, the dequant offset table and the staged payload —
unchanged. -/
theorem C7_duplicate_block_skipped :
    ∀ (sess : Session) (st : DecState) (ballot pw qc bi : Nat) (extra : List Nat),
      ballot < 65536 → pw < 4096 → qc < 256 → bi < 16777216 →
      8 + extra.length = pw * 4 → bi < sess.block_count_32x32 →
      st.last_seq < 8 →
      st.dequant_offset.getD bi 0 ≠ UINT32_MAX →
      push_packet sess st (blockPacket ballot pw st.last_seq qc bi extra) = some (true, st) :=
  fun _ _ ballot pw qc bi extra hb hp hq hi hlen hbi hlast hdup =>
    push_packet_block_duplicate ballot pw qc bi extra hb hp hq hi hlen hbi hlast hdup

/-- C7 witness: pushing block 0 of sequence 2 again on `stDup` (where it is
already staged) succeeds and changes nothing. -/
theorem C7_duplicate_block_skipped_witness :
    push_packet sess128 stDup (blockPacket 0 2 stDup.last_seq 0 0 []) = some (true, stDup) :=
  C7_duplicate_block_skipped sess128 stDup 0 2 0 0 [] (by norm_num) (by norm_num)
    (by norm_num) (by norm_num) (by decide) (by decide) (by decide) (by decide)

/-! ## Claim C8 -/

/-- C8: issuing `decode` sets `decoded_frame_for_current_sequence`; while that
flag is set `decode_is_ready` returns `false` for both values of
`allow_partial_frame`; pushing packets of the *same* sequence (sequence header
or block packet) keeps it set, so the frame cannot be re-decoded; only a
START_OF_FRAME sequence header carrying a different (non-stale) sequence
clears the flag again — for a new frame. -/
theorem C8_decode_locks_until_new_sequence :
    (∀ st : DecState, ((decodeOp st).2).decoded_frame_for_current_sequence = true) ∧
    (∀ (st : DecState) (b : Bool), st.decoded_frame_for_current_sequence = true →
      decode_is_ready st b = false) ∧
    (∀ (sess : Session) (st : DecState) (wm1 hm1 total : Nat),
      wm1 < 16384 → hm1 < 16384 → total < 16777216 →
      wm1 + 1 = sess.width → hm1 + 1 = sess.height → st.last_seq < 8 →
      st.decoded_frame_for_current_sequence = true →
      ∃ st', push_packet sess st
          (seqPacket wm1 hm1 st.last_seq total sess.chroma.toBit) = some (true, st') ∧
        ∀ b, decode_is_ready st' b = false) ∧
    (∀ (sess : Session) (st : DecState) (ballot pw qc bi : Nat) (extra : List Nat),
      ballot < 65536 → pw < 4096 → qc < 256 → bi < 16777216 → 2 ≤ pw →
      8 + extra.length = pw * 4 → bi < sess.block_count_32x32 → st.last_seq < 8 →
      st.decoded_frame_for_current_sequence = true →
      ∃ st', push_packet sess st
          (blockPacket ballot pw st.last_seq qc bi extra) = some (true, st') ∧
        ∀ b, decode_is_ready st' b = false) ∧
    (∀ (sess : Session) (st : DecState) (wm1 hm1 s total : Nat),
      wm1 < 16384 → hm1 < 16384 → s < 8 → total < 16777216 →
      wm1 + 1 = sess.width → hm1 + 1 = sess.height → st.last_seq < 8 →
      (s + 8 - st.last_seq % 8) % 8 ≠ 0 → (s + 8 - st.last_seq % 8) % 8 ≤ 3 →
      ∃ st', push_packet sess st (seqPacket wm1 hm1 s total sess.chroma.toBit) =
          some (true, st') ∧
        st'.decoded_frame_for_current_sequence = false ∧ st'.last_seq = s) := by
  refine ⟨fun st => rfl, ?_, ?_, ?_, ?_⟩
  · intro st b h
    simp [decode_is_ready, h]
  · intro sess st wm1 hm1 total hw hh ht hwidth hheight hlast hflag
    refine ⟨{ st with total_blocks_in_sequence := total }, ?_, ?_⟩
    · exact push_packet_seq_same wm1 hm1 st.last_seq total hw hh hlast ht hwidth hheight
        hlast (by omega)
    · intro b
      simp [decode_is_ready, hflag]
  · intro sess st ballot pw qc bi extra hb hp hq hi hpw hlen hbi hlast hflag
    refine ⟨(decodePacket st bi pw (blockPacket ballot pw st.last_seq qc bi extra)).2, ?_, ?_⟩
    · exact push_packet_block_same ballot pw st.last_seq qc bi extra hb hp hlast hq hi hpw
        hlen hbi hlast (by omega)
    · intro b
      have := decodePacket_preserves_flag st bi pw (blockPacket ballot pw st.last_seq qc bi extra)
      rw [hflag] at this
      simp [decode_is_ready, this]
  · intro sess st wm1 hm1 s total hw hh hs ht hwidth hheight hlast hne hle
    refine ⟨{ clearState sess st with last_seq := s, total_blocks_in_sequence := total },
      push_packet_seq_adopt wm1 hm1 s total hw hh hs ht hwidth hheight hlast hne hle,
      rfl, rfl⟩

/-- C8 witness: after `decodeOp` on `stSeq0`, readiness is `false`, and a
same-sequence header keeps it so. -/
theorem C8_decode_locks_until_new_sequence_witness :
    decode_is_ready (decodeOp stSeq0).2 true = false ∧
    ∃ st', push_packet sess128 (decodeOp stSeq0).2
        (seqPacket 127 127 (decodeOp stSeq0).2.last_seq 12 sess128.chroma.toBit) =
        some (true, st') ∧ ∀ b, decode_is_ready st' b = false :=
  ⟨C8_decode_locks_until_new_sequence.2.1 (decodeOp stSeq0).2 true (by decide),
   C8_decode_locks_until_new_sequence.2.2.1 sess128 (decodeOp stSeq0).2 127 127 12
     (by norm_num) (by norm_num) (by norm_num) (by decide) (by decide) (by decide) (by decide)⟩

/-! ## Claim C10 -/

/-- C10 (termination of `push_packet`): refuted by the code.  `stDup` is
reachable (first conjunct: pushing the valid 8-byte block packet
`blockPacket 0 2 2 0 0 []` onto the freshly initialized decoder).  Pushing an
8-byte block packet for the same sequence and block but with
`payload_words = 0` then loops forever: the duplicate branch of
`decode_packet` returns success without checking `payload_words`, and the
loop advances the cursor by `payload_words * 4 = 0` bytes, so the iteration
repeats with identical state (second conjunct: no amount of fuel makes the
loop terminate).  Hence `push_packet` (third conjunct) diverges instead of
returning ok/err. -/
theorem C10_push_packet_nonterminating :
    push_packet sess128 stInit (blockPacket 0 2 2 0 0 []) = some (true, stDup) ∧
    (∀ fuel, pushPacketLoop sess128 fuel stDup (blockPacket 0 0 2 0 0 []) = none) ∧
    push_packet sess128 stDup (blockPacket 0 0 2 0 0 []) = none := by
  have hstep : ∀ fuel, pushPacketLoop sess128 fuel stDup (blockPacket 0 0 2 0 0 []) = none := by
    intro fuel
    induction fuel with
    | zero => rfl
    | succ n ih =>
      rw [pushPacketLoop]
      rw [if_neg (by decide)]
      rw [show pushIter sess128 stDup (blockPacket 0 0 2 0 0 []) =
            .next stDup (blockPacket 0 0 2 0 0 []) by decide]
      exact ih
  exact ⟨by decide, hstep, hstep _⟩

/-! ## Claim C4 -/

/-- C4, counterexample.  The claim's second implication fails when
`total_blocks_in_sequence = 0`: a START_OF_FRAME with `total_blocks = 0` on a
fresh decoder is legal wire input and yields a state with `decoded_blocks = 0`,
`total_blocks_in_sequence = 0`, for which `decode_is_ready(true)` returns
`true` although `decoded_blocks > total_blocks_in_sequence / 2` is `0 > 0`,
false. -/
theorem C4_counterexample :
    (∃ st', push_packet sess128 stInit (seqPacket 127 127 3 0 sess128.chroma.toBit) =
        some (true, st') ∧
      decode_is_ready st' true = true ∧
      ¬ (st'.total_blocks_in_sequence / 2 < st'.decoded_blocks)) := by
  refine ⟨{ dequant_offset := List.replicate 12 UINT32_MAX
            payload := []
            decoded_blocks := 0
            total_blocks_in_sequence := 0
            last_seq := 3
            decoded_frame_for_current_sequence := false }, by decide, by decide, by decide⟩

/-- C4, amended: `decode_is_ready(false) = true` implies
`decoded_blocks ≥ total_blocks_in_sequence`, and `decode_is_ready(true) = true`
implies `decoded_blocks > total_blocks_in_sequence / 2` *or*
`total_blocks_in_sequence = 0` (the only exception, exhibited by the
counterexample). -/
theorem C4_decode_is_ready_bounds (st : DecState) :
    (decode_is_ready st false = true →
      st.total_blocks_in_sequence ≤ st.decoded_blocks) ∧
    (decode_is_ready st true = true →
      st.total_blocks_in_sequence / 2 < st.decoded_blocks ∨
        st.total_blocks_in_sequence = 0) := by
  constructor
  · simp only [decode_is_ready]
    split_ifs with h1 h2 <;> intro h
    · cases h
    · cases h
    · have hnl : ¬ (st.decoded_blocks < st.total_blocks_in_sequence) := by
        intro hlt
        exact h2 ⟨hlt, Or.inl (by simp)⟩
      omega
  · simp only [decode_is_ready]
    split_ifs with h1 h2 <;> intro h
    · cases h
    · cases h
    · have hnl : ¬ (st.decoded_blocks < st.total_blocks_in_sequence ∧
          st.decoded_blocks ≤ st.total_blocks_in_sequence / 2) := by
        rintro ⟨a, b⟩
        exact h2 ⟨a, Or.inr b⟩
      omega

/-- C4 witness: at a fully decoded state (`decoded = total = 12`) both
readiness predicates are `true` and the amended bounds hold. -/
theorem C4_decode_is_ready_bounds_witness :
    ({ stSeq0 with decoded_blocks := 12 } : DecState).total_blocks_in_sequence ≤
      ({ stSeq0 with decoded_blocks := 12 } : DecState).decoded_blocks ∧
    (({ stSeq0 with decoded_blocks := 12 } : DecState).total_blocks_in_sequence / 2 <
      ({ stSeq0 with decoded_blocks := 12 } : DecState).decoded_blocks ∨
      ({ stSeq0 with decoded_blocks := 12 } : DecState).total_blocks_in_sequence = 0) :=
  ⟨(C4_decode_is_ready_bounds _).1 (by decide), (C4_decode_is_ready_bounds _).2 (by decide)⟩

/-! ## Wavelet buffer geometry (`pyrowave_common.cpp`) -/

/-- `align(value, align) = (value + align - 1) & ~(align - 1)`
(`pyrowave_common.hpp`).  For the power-of-two alignments the codec uses and
non-negative values, the bitmask equals rounding down to a multiple:
`x & ~(a-1) = x - x % a`. -/
def align (value al : Nat) : Nat := (value + al - 1) - (value + al - 1) % al

/-- `WaveletBuffers::init`: `aligned = max(align(v, Alignment), MinimumImageSize)`
(applied to both width and height). -/
def alignedSize (v : Nat) : Nat := max (align v Alignment) MinimumImageSize

/-- The spec's `align_up(v, k)`: round `v` up to the next multiple of `k`. -/
def align_up_spec (v k : Nat) : Nat := k * ((v + k - 1) / k)

/-! ## Claim C9 -/

/-- C9: for every `init` with width `W` and height `H`, the session's
`aligned_width` equals `max(align_up(W, 32), 128)` and `aligned_height`
equals `max(align_up(H, 32), 128)`. -/
theorem C9_aligned_dimensions (W H : Nat) :
    alignedSize W = max (align_up_spec W 32) 128 ∧
    alignedSize H = max (align_up_spec H 32) 128 := by
  have key : ∀ v : Nat, alignedSize v = max (align_up_spec v 32) 128 := by
    intro v
    unfold alignedSize align align_up_spec Alignment MinimumImageSize DecompositionLevels
    norm_num
    omega
  exact ⟨key W, key H⟩

/-! ## Packetizer (`pyrowave_encoder.cpp`)

`compute_num_packets` and `packetize` both walk the GPU-written per-block
meta array `BitstreamPacket { offset_u32, num_words }` and group non-empty
blocks into packets of at most `packet_boundary` bytes, the first packet
also carrying the 8-byte `BitstreamSequenceHeader`.  `packetize` additionally
validates every block first (`validate_bitstream`) and returns `false`
(which converts to 0 packets) on any failure; the structural validator reads
the full bitstream and is abstracted here as a per-block predicate, since the
claim only concerns meta arrays whose blocks all pass it. -/

structure BitstreamPacket where
  offset_u32 : Nat
  num_words : Nat
deriving DecidableEq, Repr

/-- `Encoder::Packet { offset, size }`. -/
structure Packet where
  offset : Nat
  size : Nat
deriving DecidableEq, Repr

/-- The counting loop of `compute_num_packets` (state: `num_packets`,
`size_in_packet`; the latter starts at `sizeof(BitstreamSequenceHeader) = 8`). -/
def countLoop (packet_boundary : Nat) :
    List BitstreamPacket → Nat → Nat → Nat
  | [], num_packets, size_in_packet =>
      if size_in_packet ≠ 0 then num_packets + 1 else num_packets
  | m :: rest, num_packets, size_in_packet =>
      let packet_size := m.num_words * 4
      if packet_size = 0 then countLoop packet_boundary rest num_packets size_in_packet
      else if size_in_packet + packet_size > packet_boundary then
        countLoop packet_boundary rest (num_packets + 1) (0 + packet_size)
      else
        countLoop packet_boundary rest num_packets (size_in_packet + packet_size)

/-- `Encoder::Impl::compute_num_packets`. -/
def compute_num_packets (meta : List BitstreamPacket) (packet_boundary : Nat) : Nat :=
  countLoop packet_boundary meta 0 8

/-- The packing loop of `packetize` (state additionally tracks
`packet_offset`, `output_offset` and the emitted packets; on overflow the
current packet is flushed, `packet_offset` moves to `output_offset`, then the
block is appended). -/
def packetizeLoop (packet_boundary : Nat) :
    List BitstreamPacket → Nat → Nat → Nat → Nat → List Packet → Nat × List Packet
  | [], num_packets, size_in_packet, packet_offset, _, packets =>
      if size_in_packet ≠ 0 then
        (num_packets + 1, packets ++ [⟨packet_offset, size_in_packet⟩])
      else (num_packets, packets)
  | m :: rest, num_packets, size_in_packet, packet_offset, output_offset, packets =>
      let packet_size := m.num_words * 4
      if packet_size = 0 then
        packetizeLoop packet_boundary rest num_packets size_in_packet packet_offset
          output_offset packets
      else if size_in_packet + packet_size > packet_boundary then
        packetizeLoop packet_boundary rest (num_packets + 1) (0 + packet_size) output_offset
          (output_offset + packet_size) (packets ++ [⟨packet_offset, size_in_packet⟩])
      else
        packetizeLoop packet_boundary rest num_packets (size_in_packet + packet_size)
          packet_offset (output_offset + packet_size) packets

/-- `Encoder::Impl::packetize`: after writing the 8-byte sequence header
(`size_in_packet = output_offset = 8`, `packet_offset = 0`), every block is
validated (any failure returns `false`, i.e. 0 packets), then the blocks are
packed.  Returns the packet count and the emitted `{offset, size}` records. -/
def packetize (validate : Nat → Bool) (meta : List BitstreamPacket)
    (packet_boundary : Nat) : Nat × List Packet :=
  if (List.range meta.length).all validate then
    packetizeLoop packet_boundary meta 0 8 0 8 []
  else (0, [])

lemma countLoop_eq_packetizeLoop (packet_boundary : Nat) (meta : List BitstreamPacket) :
    ∀ (num_packets size_in_packet packet_offset output_offset : Nat)
      (packets : List Packet),
      countLoop packet_boundary meta num_packets size_in_packet =
        (packetizeLoop packet_boundary meta num_packets size_in_packet packet_offset
          output_offset packets).1 := by
  induction meta with
  | nil =>
    intro n s po oo pkts
    simp only [countLoop, packetizeLoop]
    split <;> rfl
  | cons m rest ih =>
    intro n s po oo pkts
    simp only [countLoop, packetizeLoop]
    split
    · exact ih n s po oo pkts
    · split
      · exact ih (n + 1) (0 + m.num_words * 4) oo (oo + m.num_words * 4) _
      · exact ih n (s + m.num_words * 4) po (oo + m.num_words * 4) pkts

/-! ## Claim C5 -/

/-- C5: for every meta array whose blocks all pass structural bitstream
validation and every `packet_boundary ≥ 8` (the header size),
`compute_num_packets` returns exactly the number of packets `packetize`
produces on the same meta. -/
theorem C5_compute_num_packets_matches_packetize
    (meta : List BitstreamPacket) (validate : Nat → Bool) (packet_boundary : Nat)
    (hval : ∀ i, i < meta.length → validate i = true) (hmtu : 8 ≤ packet_boundary) :
    compute_num_packets meta packet_boundary =
      (packetize validate meta packet_boundary).1 := by
  unfold packetize compute_num_packets
  rw [if_pos]
  · exact countLoop_eq_packetizeLoop packet_boundary meta 0 8 0 8 []
  · rw [List.all_eq_true]
    intro i hi
    rw [List.mem_range] at hi
    exact hval i hi

/-- C5 witness: a three-block meta (`num_words` 2, 0, 3) with an
all-accepting validator and `packet_boundary = 16`. -/
theorem C5_compute_num_packets_matches_packetize_witness :
    compute_num_packets [⟨0, 2⟩, ⟨2, 0⟩, ⟨2, 3⟩] 16 =
      (packetize (fun _ => true) [⟨0, 2⟩, ⟨2, 0⟩, ⟨2, 3⟩] 16).1 :=
  C5_compute_num_packets_matches_packetize _ _ 16 (fun i _ => rfl) (by norm_num)

/-! ## Block grid enumeration (`WaveletBuffers::init_block_meta` /
`accumulate_block_mapping`, `pyrowave_common.cpp`)

`init_block_meta` iterates `level` from `DecompositionLevels-1` down to 0,
inside it `component` 0..2 (skipping top-level chroma for 4:2:0), inside it
`band` from 0 (only at the coarsest level, else 1) to 3.  For each band it
records `BlockInfo { block_offset_8x8 = count8, block_stride_8x8, block_offset_32x32
= count32, block_stride_32x32 = (level_width+31)/32 }` and then
`accumulate_block_mapping` advances `count32` by `blocks_x_32x32 *
blocks_y_32x32` (with `blocks_{x,y}_32x32 = (blocks_{x,y}_8x8 + 3) / 4`) and
`count8` by `blocks_x_8x8 * blocks_y_8x8`.

`level_width/height` are the mip dimensions of `wavelet_img_high_res`, which
is created at `aligned/2` resolution; the Vulkan mip-chain rule gives
`max(1, (aligned/2) >> level)` (for the legal sessions, `aligned ≥ 128`, the
clamp is inert and this equals the spec's `⌈aligned/2^(ℓ+1)⌉`). -/

def levelWidth (W level : Nat) : Nat := max 1 (alignedSize W / 2 / 2 ^ level)

def levelHeight (H level : Nat) : Nat := max 1 (alignedSize H / 2 / 2 ^ level)

/-- The `(level, component, band)` iteration order of `init_block_meta`. -/
def bandTriples (chroma : ChromaSubsampling) : List (Nat × Nat × Nat) :=
  (List.range DecompositionLevels).reverse.flatMap fun level =>
    (List.range NumComponents).flatMap fun component =>
      if level = 0 ∧ component ≠ 0 ∧ chroma = .Chroma420 then []
      else
        ((List.range 4).drop (if level = DecompositionLevels - 1 then 0 else 1)).map
          fun band => (level, component, band)

/-- One recorded band: the source's `BlockInfo` plus the per-band 32×32 grid
dimensions used by `accumulate_block_mapping`. -/
structure BandMeta where
  level : Nat
  component : Nat
  band : Nat
  block_offset_8x8 : Nat
  block_stride_8x8 : Nat
  block_offset_32x32 : Nat
  block_stride_32x32 : Nat
  blocks_x_32x32 : Nat
  blocks_y_32x32 : Nat
deriving DecidableEq, Repr

/-- The fold of `init_block_meta` over the band iteration order, threading
the running `block_count_8x8` / `block_count_32x32` counters. -/
def buildBands (W H : Nat) : List (Nat × Nat × Nat) → Nat → Nat → List BandMeta
  | [], _, _ => []
  | (level, component, band) :: rest, count8, count32 =>
    let lw := levelWidth W level
    let lh := levelHeight H level
    let bx8 := (lw + 7) / 8
    let by8 := (lh + 7) / 8
    let bx32 := (bx8 + 3) / 4
    let by32 := (by8 + 3) / 4
    { level := level, component := component, band := band
      block_offset_8x8 := count8, block_stride_8x8 := bx8
      block_offset_32x32 := count32, block_stride_32x32 := (lw + 31) / 32
      blocks_x_32x32 := bx32, blocks_y_32x32 := by32 } ::
      buildBands W H rest (count8 + bx8 * by8) (count32 + bx32 * by32)

/-- All band records of a session, in iteration order. -/
def init_block_meta (W H : Nat) (chroma : ChromaSubsampling) : List BandMeta :=
  buildBands W H (bandTriples chroma) 0 0

/-- The number of 32×32 blocks a band contributes. -/
def bandSize (W H level : Nat) : Nat :=
  ((levelWidth W level + 7) / 8 + 3) / 4 * (((levelHeight H level + 7) / 8 + 3) / 4)

/-- The final `block_count_32x32` counter. -/
def block_count_32x32 (W H : Nat) (chroma : ChromaSubsampling) : Nat :=
  ((bandTriples chroma).map fun t => bandSize W H t.1).sum

/-- The global 32×32 block indices of one band, `offset + y·stride + x`,
`y`-major then `x` (the order `accumulate_block_mapping` pushes them and the
order the shaders address them). -/
def bandIndices (e : BandMeta) : List Nat :=
  (List.range e.blocks_y_32x32).flatMap fun y =>
    (List.range e.blocks_x_32x32).map fun x =>
      e.block_offset_32x32 + y * e.block_stride_32x32 + x

/-- All global 32×32 block indices of a frame, in the wire enumeration
order. -/
def blockIndexEnumeration (W H : Nat) (chroma : ChromaSubsampling) : List Nat :=
  (init_block_meta W H chroma).flatMap bandIndices

/-! ### C6 proofs -/

lemma grid_enum (off bx : Nat) :
    ∀ by_ : Nat,
      ((List.range by_).flatMap fun y =>
        (List.range bx).map fun x => off + y * bx + x) =
        List.range' off (by_ * bx) := by
  intro by_
  induction by_ with
  | zero => simp
  | succ n ih =>
    rw [List.range_succ, List.flatMap_append, ih]
    have hmap : ((List.range bx).map fun x => off + n * bx + x) =
        List.range' (off + n * bx) bx := by
      have := List.map_add_range' (off + n * bx) 0 bx 1
      rw [← List.range_eq_range'] at this
      exact this
    simp only [List.flatMap_cons, List.flatMap_nil, List.append_nil, hmap]
    rw [List.range'_append_1]
    congr 1
    ring

lemma stride_eq_blocks_x (lw : Nat) : (lw + 31) / 32 = ((lw + 7) / 8 + 3) / 4 := by
  omega

lemma buildBands_flatMap (W H : Nat) :
    ∀ (ts : List (Nat × Nat × Nat)) (count8 count32 : Nat),
      (buildBands W H ts count8 count32).flatMap bandIndices =
        List.range' count32 ((ts.map fun t => bandSize W H t.1).sum) := by
  intro ts
  induction ts with
  | nil => intro c8 c32; rfl
  | cons t rest ih =>
    intro c8 c32
    obtain ⟨level, component, band⟩ := t
    simp only [buildBands, List.flatMap_cons, List.map_cons, List.sum_cons]
    rw [ih]
    have hband :
        bandIndices
          { level := level, component := component, band := band
            block_offset_8x8 := c8, block_stride_8x8 := (levelWidth W level + 7) / 8
            block_offset_32x32 := c32
            block_stride_32x32 := (levelWidth W level + 31) / 32
            blocks_x_32x32 := ((levelWidth W level + 7) / 8 + 3) / 4
            blocks_y_32x32 := ((levelHeight H level + 7) / 8 + 3) / 4 } =
          List.range' c32 (bandSize W H level) := by
      have hs := stride_eq_blocks_x (levelWidth W level)
      unfold bandIndices bandSize
      simp only
      rw [hs, grid_enum c32 (((levelWidth W level + 7) / 8 + 3) / 4)
            (((levelHeight H level + 7) / 8 + 3) / 4)]
      congr 1
      exact Nat.mul_comm _ _
    rw [hband]
    rw [show bandSize W H level = ((levelWidth W level + 7) / 8 + 3) / 4 *
          (((levelHeight H level + 7) / 8 + 3) / 4) from rfl]
    rw [List.range'_append_1]
    congr 1
    omega

/-! ## Claim C6 -/

/-- C6: for every session, the global 32×32 block indices produced by the
block-grid enumeration (level `L−1` down to 0, components then bands with LL
only at the top level, `y`-major then `x` inside a band) are exactly
`[0, block_count_32x32)` in order — strictly increasing and contiguous. -/
theorem C6_block_index_enumeration (W H : Nat) (chroma : ChromaSubsampling) :
    blockIndexEnumeration W H chroma = List.range (block_count_32x32 W H chroma) ∧
    List.Pairwise (· < ·) (blockIndexEnumeration W H chroma) := by
  have h : blockIndexEnumeration W H chroma = List.range (block_count_32x32 W H chroma) := by
    unfold blockIndexEnumeration init_block_meta block_count_32x32
    rw [buildBands_flatMap W H (bandTriples chroma) 0 0]
    rw [List.range_eq_range']
  exact ⟨h, by rw [h]; exact List.pairwise_lt_range _⟩

end PyroWave
